import Mathlib

/-!
Verification development for the brickdrop game core: a shallow embedding of
the piece catalog, board operations, 7-bag randomizer, scoring table and the
game engine state machine, together with theorems settling the specified
properties.  Machine numbers are modelled as `Int`/`Nat`; the millisecond
timers (which are JS floats fed by frame deltas) are modelled as rationals.
-/

namespace Brickdrop

/-! ### Constants (src/game/constants.ts) -/

def BOARD_WIDTH : Nat := 10
def BOARD_HEIGHT : Nat := 20
def SPAWN_ROWS : Nat := 4
def TOTAL_HEIGHT : Nat := BOARD_HEIGHT + SPAWN_ROWS
def LOCK_DELAY : Nat := 500
def SOFT_DROP_MULTIPLIER : Nat := 20
def LINES_PER_LEVEL : Nat := 10

/-! ### Piece catalog -/

/-- The seven tetromino kinds (`PIECE_TYPES` in constants.ts). -/
inductive PieceType where
  | I | O | T | S | Z | J | L
deriving DecidableEq, Repr, Inhabited

/-- Order of `PIECE_TYPES = ['I','O','T','S','Z','J','L']`. -/
def PIECE_TYPES : List PieceType :=
  [.I, .O, .T, .S, .Z, .J, .L]

/-- Modelled from the spec: src/game/piece.ts is not in the sources; per
spec section 4.1 the catalog returns, for a kind and rotation index 0-3, the
occupied relative (dx,dy) offsets of that orientation.  Spawn-orientation
shapes follow the standard SRS matrices (the repository draws the same
shapes on the cartridge label); rotations are the clockwise rotations of the
bounding box (side 4 for I, 2 for O, 3 otherwise). -/
def baseCells : PieceType → List (Int × Int)
  | .I => [(0, 1), (1, 1), (2, 1), (3, 1)]
  | .O => [(0, 0), (1, 0), (0, 1), (1, 1)]
  | .T => [(1, 0), (0, 1), (1, 1), (2, 1)]
  | .S => [(1, 0), (2, 0), (0, 1), (1, 1)]
  | .Z => [(0, 0), (1, 0), (1, 1), (2, 1)]
  | .J => [(0, 0), (0, 1), (1, 1), (2, 1)]
  | .L => [(2, 0), (0, 1), (1, 1), (2, 1)]

/-- Side of the bounding box a kind rotates in. -/
def gridSize : PieceType → Nat
  | .I => 4
  | .O => 2
  | _ => 3

/-- Clockwise rotation of one cell inside an `n` by `n` bounding box. -/
def rotCellCW (n : Nat) (c : Int × Int) : Int × Int :=
  ((n : Int) - 1 - c.2, c.1)

/-- Modelled from the spec: occupied relative cells of a kind at a rotation
index (spec section 4.1); rotation `r` applies `r mod 4` clockwise quarter
turns to the spawn shape. -/
def getPieceCells (t : PieceType) (rotation : Nat) : List (Int × Int) :=
  (List.range (rotation % 4)).foldl (fun cs _ => cs.map (rotCellCW (gridSize t))) (baseCells t)

/-- Modelled from the spec: color index 1-7 written into board cells; the
mapping matches `getPieceColorIndex` in src/game/renderer.ts. -/
def getPieceColor : PieceType → Nat
  | .I => 1
  | .O => 2
  | .T => 3
  | .S => 4
  | .Z => 5
  | .J => 6
  | .L => 7

/-- Modelled from the spec: wall-kick candidates for the J, L, S, T, Z kinds,
table `KICK_TABLE_JLSTZ` recorded in the repository SPEC.md section 14.
Rotation indices: 0 = spawn, 1 = R, 2 = 180, 3 = L.  Transitions absent from
the table yield no candidates. -/
def kickTableJLSTZ (fromRot toRot : Nat) : List (Int × Int) :=
  match fromRot, toRot with
  | 0, 1 => [(0, 0), (-1, 0), (-1, 1), (0, -2), (-1, -2)]
  | 1, 0 => [(0, 0), (1, 0), (1, -1), (0, 2), (1, 2)]
  | 1, 2 => [(0, 0), (1, 0), (1, -1), (0, 2), (1, 2)]
  | 2, 1 => [(0, 0), (-1, 0), (-1, 1), (0, -2), (-1, -2)]
  | 2, 3 => [(0, 0), (1, 0), (1, 1), (0, -2), (1, -2)]
  | 3, 2 => [(0, 0), (-1, 0), (-1, -1), (0, 2), (-1, 2)]
  | 3, 0 => [(0, 0), (-1, 0), (-1, -1), (0, 2), (-1, 2)]
  | 0, 3 => [(0, 0), (1, 0), (1, 1), (0, -2), (1, -2)]
  | _, _ => []

/-- Modelled from the spec: wall-kick candidates for the I kind, table
`KICK_TABLE_I` recorded in the repository SPEC.md section 14. -/
def kickTableI (fromRot toRot : Nat) : List (Int × Int) :=
  match fromRot, toRot with
  | 0, 1 => [(0, 0), (-2, 0), (1, 0), (-2, -1), (1, 2)]
  | 1, 0 => [(0, 0), (2, 0), (-1, 0), (2, 1), (-1, -2)]
  | 1, 2 => [(0, 0), (-1, 0), (2, 0), (-1, 2), (2, -1)]
  | 2, 1 => [(0, 0), (1, 0), (-2, 0), (1, -2), (-2, 1)]
  | 2, 3 => [(0, 0), (2, 0), (-1, 0), (2, 1), (-1, -2)]
  | 3, 2 => [(0, 0), (-2, 0), (1, 0), (-2, -1), (1, 2)]
  | 3, 0 => [(0, 0), (1, 0), (-2, 0), (1, -2), (-2, 1)]
  | 0, 3 => [(0, 0), (-1, 0), (2, 0), (-1, 2), (2, -1)]
  | _, _ => []

/-- Modelled from the spec: kick lookup by kind and transition (spec section
4.1); the O kind has a single zero-offset candidate. -/
def getWallKicks (t : PieceType) (fromRot toRot : Nat) : List (Int × Int) :=
  match t with
  | .O => [(0, 0)]
  | .I => kickTableI fromRot toRot
  | _ => kickTableJLSTZ fromRot toRot

/-! ### Board (board module concatenated into src/scene/handheld.ts) -/

/-- An active piece: kind, grid position of the bounding-box origin, and a
rotation index. -/
structure Piece where
  type : PieceType
  x : Int
  y : Int
  rotation : Nat
deriving DecidableEq, Repr

/-- A board is a list of rows, each a list of cell values (0 empty, 1-7 a
color index). -/
abbrev Board := List (List Nat)

/-- Embeds `createEmptyBoard`. -/
def createEmptyBoard : Board :=
  List.replicate TOTAL_HEIGHT (List.replicate BOARD_WIDTH 0)

/-- Cell lookup `board[y][x]`; `none` models a JS out-of-range access. -/
def cellAt (board : Board) (y x : Nat) : Option Nat :=
  (board.get? y).bind (fun row => row.get? x)

/-- One loop iteration of `isValidPosition`: the occupied cell must be
inside the grid and land on a cell holding 0. -/
def cellOk (board : Board) (p : Piece) (c : Int × Int) : Bool :=
  let x := p.x + c.1
  let y := p.y + c.2
  if x < 0 ∨ (BOARD_WIDTH : Int) ≤ x then false
  else if y < 0 ∨ (TOTAL_HEIGHT : Int) ≤ y then false
  else
    match cellAt board y.toNat x.toNat with
    | some v => v == 0
    | none => false

/-- Embeds `isValidPosition`: every occupied cell of the piece must be inside
the grid and land on a cell holding 0. -/
def isValidPosition (board : Board) (p : Piece) : Bool :=
  (getPieceCells p.type p.rotation).all (cellOk board p)

/-- Row-cell update `board[y][x] = v` with structural copying. -/
def setCell (board : Board) (y x v : Nat) : Board :=
  match board.get? y with
  | some row => board.set y (row.set x v)
  | none => board

/-- One loop iteration of `placePiece`: writes the piece's color index into
the cell if it falls inside the grid, silently skipping it otherwise. -/
def placeCell (p : Piece) (b : Board) (c : Int × Int) : Board :=
  let x := p.x + c.1
  let y := p.y + c.2
  if 0 ≤ y ∧ y < (TOTAL_HEIGHT : Int) ∧ 0 ≤ x ∧ x < (BOARD_WIDTH : Int) then
    setCell b y.toNat x.toNat (getPieceColor p.type)
  else b

/-- Embeds `placePiece`: writes the piece's color index into each occupied
cell that falls inside the grid; out-of-grid cells are silently skipped. -/
def placePiece (board : Board) (p : Piece) : Board :=
  (getPieceCells p.type p.rotation).foldl (placeCell p) board

/-- A full row: `row.every(cell => cell !== 0)`. -/
def isFullRow (row : List Nat) : Bool :=
  row.all (fun cell => cell != 0)

/-- Embeds `clearLines`: scans the first `TOTAL_HEIGHT` rows, drops the full
ones, and pads the top with empty rows back to `TOTAL_HEIGHT`; also returns
the number of rows dropped. -/
def clearLines (board : Board) : Board × Nat :=
  let scanned := board.take TOTAL_HEIGHT
  let kept := scanned.filter (fun row => ! isFullRow row)
  let linesCleared := scanned.countP (fun row => isFullRow row)
  (List.replicate (TOTAL_HEIGHT - kept.length) (List.replicate BOARD_WIDTH 0) ++ kept,
   linesCleared)

/-- Downward probe loop of `getGhostPosition`, with explicit fuel; the JS
while-loop terminates because every catalog shape is nonempty, which keeps
the reachable descent bounded, and the fuel below exceeds that bound. -/
def ghostLoop (board : Board) (p : Piece) : Nat → Int → Int
  | 0, y => y
  | fuel + 1, y =>
    if isValidPosition board { p with y := y + 1 } then
      ghostLoop board p fuel (y + 1)
    else y

/-- Embeds `getGhostPosition`: the lowest y reachable by translating the
piece straight down. -/
def getGhostPosition (board : Board) (p : Piece) : Int :=
  ghostLoop board p (((TOTAL_HEIGHT : Int) - p.y).toNat + 1) p.y

/-! ### Scoring (src/game/scoring.ts) -/

/-- Base score per simultaneous clear count; `SCORE_TABLE[n] || 0`. -/
def scoreTable (n : Nat) : Nat :=
  match n with
  | 1 => 100
  | 2 => 300
  | 3 => 500
  | 4 => 800
  | _ => 0

/-- Embeds `calculateScore`. -/
def calculateScore (linesCleared : Nat) (level : Int) : Int :=
  if linesCleared = 0 then 0
  else (scoreTable linesCleared : Int) * level

/-- Embeds `calculateLevel`; `Math.floor(lines / 10)` is floor division. -/
def calculateLevel (lines startLevel : Int) : Int :=
  startLevel + Int.fdiv lines (LINES_PER_LEVEL : Int)

/-- The 20-entry gravity table local to `getGravity`. -/
def gravityTable : List Nat :=
  [1000, 793, 618, 473, 355, 262, 190, 135, 94, 64,
   43, 28, 18, 11, 7, 5, 3, 2, 1, 1]

/-- Embeds `getGravity`: table lookup at index `min(level - 1, 19)`; a
negative index is a JS undefined lookup, modelled as `none`. -/
def getGravity (level : Int) : Option Nat :=
  let index := min (level - 1) 19
  if index < 0 then none else gravityTable.get? index.toNat

/-! ### Randomizer (src/game/randomizer.ts)

The random source `Math.random` is modelled as an infinite stream
`f : Nat -> Nat` of already-floored indices together with a consumption
position; each Fisher-Yates step at loop index `i` reads the next stream
value as its swap index `j` (in the real program `j = floor(random * (i+1))`,
always in `0..i`). -/

/-- Randomizer state: the current bag plus the stream position. -/
structure RandState where
  bag : List PieceType
  pos : Nat
deriving DecidableEq, Repr

/-- Array-style swap of two positions, as the destructuring swap in
`fillBag`; out-of-range positions leave the list unchanged. -/
def listSwap (l : List PieceType) (i j : Nat) : List PieceType :=
  match l.get? i, l.get? j with
  | some a, some b => (l.set i b).set j a
  | _, _ => l

/-- The Fisher-Yates loop of `fillBag`: swaps position `i` with the streamed
index, for `i` from 6 down to 1, consuming one stream value per step. -/
def fyLoop (f : Nat → Nat) : Nat → Nat → List PieceType → List PieceType
  | _, 0, bag => bag
  | k, i + 1, bag => fyLoop f (k + 1) i (listSwap bag (i + 1) (f k))

/-- Embeds `fillBag`: a fresh copy of `PIECE_TYPES` shuffled by Fisher-Yates,
consuming the six stream values at positions `pos..pos+5`. -/
def fillBag (f : Nat → Nat) (pos : Nat) : List PieceType :=
  fyLoop f pos 6 PIECE_TYPES

/-- Embeds `Randomizer.next`: refill the bag when empty, then pop its last
element. -/
def randNext (f : Nat → Nat) (s : RandState) : PieceType × RandState :=
  if s.bag.isEmpty then
    let bag := fillBag f s.pos
    ((bag.getLast?).getD .I, ⟨bag.dropLast, s.pos + 6⟩)
  else
    ((s.bag.getLast?).getD .I, ⟨s.bag.dropLast, s.pos⟩)

/-- The while-loop of `peek`: pops from the scratch bag, refilling it with a
freshly shuffled set (consuming six stream values) whenever it is empty;
returns the collected kinds and the final stream position. -/
def peekLoop (f : Nat → Nat) : Nat → Nat → List PieceType → List PieceType × Nat
  | pos, 0, _ => ([], pos)
  | pos, n + 1, temp =>
    if temp.isEmpty then
      let temp2 := fillBag f pos
      let rec' := peekLoop f (pos + 6) n temp2.dropLast
      (((temp2.getLast?).getD .I) :: rec'.1, rec'.2)
    else
      let rec' := peekLoop f pos n temp.dropLast
      (((temp.getLast?).getD .I) :: rec'.1, rec'.2)

/-- Embeds `Randomizer.peek`: operates on a scratch copy of the bag (the real
bag is untouched) but consumes the shared random stream for any refills. -/
def randPeek (f : Nat → Nat) (s : RandState) (count : Nat) : List PieceType × RandState :=
  let r := peekLoop f s.pos count s.bag
  (r.1, ⟨s.bag, r.2⟩)

/-- Embeds `Randomizer.reset`: empties the bag. -/
def randReset (s : RandState) : RandState :=
  ⟨[], s.pos⟩

/-- A sequence of `n` consecutive `next()` calls. -/
def drawsN (f : Nat → Nat) : Nat → RandState → List PieceType × RandState
  | 0, s => ([], s)
  | n + 1, s =>
    let r := randNext f s
    let rest := drawsN f n r.2
    (r.1 :: rest.1, rest.2)

/-! ### Game engine (src/game/engine.ts, concatenated into unnamed part) -/

/-- Engine status constants (`GameStatus` in types.ts). -/
def ATTRACT : Nat := 0
def PLAYING : Nat := 1
def PAUSED : Nat := 2
def GAME_OVER : Nat := 3

/-- Action constants (`Action` in types.ts). -/
def MOVE_LEFT : Nat := 0
def MOVE_RIGHT : Nat := 1
def SOFT_DROP : Nat := 2
def HARD_DROP : Nat := 3
def ROTATE_CW : Nat := 4
def ROTATE_CCW : Nat := 5
def HOLD : Nat := 6
def START_PAUSE : Nat := 7
def RESTART : Nat := 8

/-- The externally observable `GameState` snapshot. -/
structure GameState where
  board : Board
  currentPiece : Option Piece
  nextQueue : List PieceType
  holdPiece : Option PieceType
  canHold : Bool
  score : Int
  level : Int
  lines : Int
  gameOver : Bool
  paused : Bool
  playing : Bool
deriving DecidableEq, Repr

/-- The full engine: snapshot, status, randomizer and the private timers. -/
structure Engine where
  state : GameState
  status : Nat
  rand : RandState
  gravityTimer : Rat
  lockTimer : Rat
  isLocking : Bool
  softDropping : Bool
deriving DecidableEq, Repr

/-- Embeds `createInitialState`: empty board, five kinds drawn into the next
queue, everything else at its initial value. -/
def createInitialState (f : Nat → Nat) (rand : RandState) : GameState × RandState :=
  let d := drawsN f 5 rand
  ({ board := createEmptyBoard
     currentPiece := none
     nextQueue := d.1
     holdPiece := none
     canHold := true
     score := 0
     level := 1
     lines := 0
     gameOver := false
     paused := false
     playing := false }, d.2)

/-- Embeds the `GameEngine` constructor: fresh randomizer, initial state,
ATTRACT status, timers at zero. -/
def mkEngine (f : Nat → Nat) : Engine :=
  let r := createInitialState f ⟨[], 0⟩
  { state := r.1
    status := ATTRACT
    rand := r.2
    gravityTimer := 0
    lockTimer := 0
    isLocking := false
    softDropping := false }

/-- The canonical spawn placement: column `floor(BOARD_WIDTH/2) - 1 = 4`, row
`SPAWN_ROWS - 2 = 2`, rotation 0 (the earlier per-cell computation in
`spawnPiece` is dead code, unconditionally overwritten). -/
def spawnTarget (t : PieceType) : Piece :=
  { type := t, x := 4, y := 2, rotation := 0 }

/-- Embeds `spawnPiece`: shifts the queue head, pushes a freshly drawn kind,
and places the new piece at the spawn position; an invalid spawn position
sets GAME_OVER and returns false.  An empty queue (never reachable: the
queue always holds 5 kinds) returns false without effect. -/
def spawnPiece (f : Nat → Nat) (e : Engine) : Bool × Engine :=
  match e.state.nextQueue with
  | [] => (false, e)
  | t :: rest =>
    let d := randNext f e.rand
    let queue := rest ++ [d.1]
    let piece := spawnTarget t
    if ¬ isValidPosition e.state.board piece then
      (false, { e with
        state := { e.state with nextQueue := queue, gameOver := true }
        rand := d.2
        status := GAME_OVER })
    else
      (true, { e with
        state := { e.state with nextQueue := queue, currentPiece := some piece, canHold := true }
        rand := d.2
        gravityTimer := 0
        lockTimer := 0
        isLocking := false })

/-- Embeds `movePiece`: translate the active piece if the destination is
valid; a successful strictly-downward move (dy > 0) resets the lock
countdown. -/
def movePiece (dx dy : Int) (e : Engine) : Bool × Engine :=
  match e.state.currentPiece with
  | none => (false, e)
  | some p =>
    let np := { p with x := p.x + dx, y := p.y + dy }
    if isValidPosition e.state.board np then
      let e' := { e with state := { e.state with currentPiece := some np } }
      if 0 < dy then (true, { e' with lockTimer := 0, isLocking := false })
      else (true, e')
    else (false, e)

/-- First-fit kick search of `rotatePiece`: each candidate `(kx, ky)` is
tried at `(x + kx, y - ky)` in the new rotation. -/
def tryKicks (board : Board) (p : Piece) (newRot : Nat) : List (Int × Int) → Option Piece
  | [] => none
  | k :: ks =>
    let np := { p with rotation := newRot, x := p.x + k.1, y := p.y - k.2 }
    if isValidPosition board np then some np else tryKicks board p newRot ks

/-- Embeds `rotatePiece` with `direction` 1 or -1: destination rotation is
`(rotation + direction + 4) % 4`; a successful rotation resets the lock
countdown. -/
def rotatePiece (direction : Int) (e : Engine) : Bool × Engine :=
  match e.state.currentPiece with
  | none => (false, e)
  | some p =>
    let newRotation := (((p.rotation : Int) + direction + 4) % 4).toNat
    let kicks := getWallKicks p.type p.rotation newRotation
    match tryKicks e.state.board p newRotation kicks with
    | some np =>
      (true, { e with
        state := { e.state with currentPiece := some np }
        lockTimer := 0
        isLocking := false })
    | none => (false, e)

/-- The board after committing a piece and clearing full rows. -/
def lockedBoard (board : Board) (p : Piece) : Board :=
  (clearLines (placePiece board p)).1

/-- Embeds `lockPiece`: commit the piece, clear lines, update lines, score
(at the pre-update level) and level when any line cleared, then spawn. -/
def lockPiece (f : Nat → Nat) (e : Engine) : Engine :=
  match e.state.currentPiece with
  | none => e
  | some p =>
    let r := clearLines (placePiece e.state.board p)
    let st :=
      if 0 < r.2 then
        { e.state with
          board := r.1
          lines := e.state.lines + (r.2 : Int)
          score := e.state.score + calculateScore r.2 e.state.level
          level := calculateLevel (e.state.lines + (r.2 : Int)) 1 }
      else { e.state with board := r.1 }
    (spawnPiece f { e with state := st }).2

/-- Embeds `hardDrop`: teleport to the ghost position, award 2 points per
row descended, and lock immediately. -/
def hardDrop (f : Nat → Nat) (e : Engine) : Engine :=
  match e.state.currentPiece with
  | none => e
  | some p =>
    let gy := getGhostPosition e.state.board p
    lockPiece f { e with
      state := { e.state with
        currentPiece := some { p with y := gy }
        score := e.state.score + (gy - p.y) * 2 } }

/-- Embeds `holdPiece`: with an occupied slot, swap kinds and re-spawn the
held kind (an invalid spawn position is GAME_OVER, returning before the
can-hold update); with an empty slot, stash the kind and spawn from the
queue; any completed hold clears `canHold`. -/
def holdPiece (f : Nat → Nat) (e : Engine) : Engine :=
  match e.state.currentPiece with
  | none => e
  | some p =>
    if ¬ e.state.canHold then e
    else
      match e.state.holdPiece with
      | some heldType =>
        let st := { e.state with holdPiece := some p.type }
        let piece := spawnTarget heldType
        if ¬ isValidPosition st.board piece then
          { e with state := { st with gameOver := true }, status := GAME_OVER }
        else
          { e with state := { st with currentPiece := some piece, canHold := false } }
      | none =>
        let e' := { e with state := { e.state with holdPiece := some p.type } }
        let e'' := (spawnPiece f e').2
        { e'' with state := { e''.state with canHold := false } }

/-- Embeds `pause`: toggles between PLAYING and PAUSED. -/
def pause (e : Engine) : Engine :=
  if e.status = PLAYING then
    { e with status := PAUSED, state := { e.state with paused := true } }
  else if e.status = PAUSED then
    { e with status := PLAYING, state := { e.state with paused := false } }
  else e

/-- Embeds `start`: reset the randomizer bag, rebuild the initial state,
enter PLAYING and spawn the first piece. -/
def start (f : Nat → Nat) (e : Engine) : Engine :=
  let r := createInitialState f (randReset e.rand)
  (spawnPiece f { e with state := r.1, rand := r.2, status := PLAYING }).2

/-- Embeds `handleAction`: status gates first, then the PLAYING switch;
unknown action codes are ignored. -/
def handleAction (f : Nat → Nat) (action : Nat) (e : Engine) : Engine :=
  if e.status = ATTRACT then
    if action = START_PAUSE then start f e else e
  else if e.status = GAME_OVER then
    if action = START_PAUSE ∨ action = RESTART then start f e else e
  else if e.status = PAUSED then
    if action = START_PAUSE then pause e else e
  else
    match action with
    | 0 => (movePiece (-1) 0 e).2
    | 1 => (movePiece 1 0 e).2
    | 2 => { e with softDropping := true }
    | 3 => hardDrop f e
    | 4 => (rotatePiece 1 e).2
    | 5 => (rotatePiece (-1) e).2
    | 6 => holdPiece f e
    | 7 => pause e
    | 8 => start f e
    | _ => e

/-- Embeds `handleActionRelease`: only SOFT_DROP reacts to release. -/
def handleActionRelease (action : Nat) (e : Engine) : Engine :=
  if action = SOFT_DROP then { e with softDropping := false } else e

/-- The gravity phase of `update`: accumulate `dt`; when the accumulated
timer reaches the effective gravity interval, reset it and attempt a
downward step, starting the lock countdown if the step is blocked and
awarding a soft-drop point if it succeeds while soft-dropping. -/
def postGravity (dt : Rat) (e : Engine) : Engine :=
  let gOpt := getGravity e.state.level
  let gt := e.gravityTimer + dt
  let tick : Bool :=
    match gOpt with
    | some g =>
      decide ((if e.softDropping then (g : Rat) / (SOFT_DROP_MULTIPLIER : Rat) else (g : Rat)) ≤ gt)
    | none => false
  if tick then
    let r := movePiece 0 1 { e with gravityTimer := 0 }
    if r.1 then
      if r.2.softDropping then
        { r.2 with state := { r.2.state with score := r.2.state.score + 1 } }
      else r.2
    else
      if ¬ r.2.isLocking then { r.2 with isLocking := true, lockTimer := 0 }
      else r.2
  else { e with gravityTimer := gt }

/-- Embeds `update(dt)`: no-op unless PLAYING with an active piece; gravity
phase, then the lock countdown, locking once it reaches `LOCK_DELAY`. -/
def update (f : Nat → Nat) (dt : Rat) (e : Engine) : Engine :=
  if e.status ≠ PLAYING then e
  else
    match e.state.currentPiece with
    | none => e
    | some _ =>
      let e1 := postGravity dt e
      if e1.isLocking then
        let e2 := { e1 with lockTimer := e1.lockTimer + dt }
        if (LOCK_DELAY : Rat) ≤ e2.lockTimer then lockPiece f e2 else e2
      else e1

/-- Engine states reachable from construction through the public entry
points, with the random stream fixed to `f`. -/
inductive Reachable (f : Nat → Nat) : Engine → Prop
  | init : Reachable f (mkEngine f)
  | action {e : Engine} (a : Nat) : Reachable f e → Reachable f (handleAction f a e)
  | release {e : Engine} (a : Nat) : Reachable f e → Reachable f (handleActionRelease a e)
  | tick {e : Engine} (dt : Rat) : Reachable f e → Reachable f (update f dt e)

/-! ### Board and scoring properties -/

/-- C8: for every level at least 1, `getGravity` returns the entry of the
fixed 20-value table at index `min(level - 1, 19)`; in particular level 1
maps to 1000 ms and levels 20 and 25 both map to 1 ms. -/
theorem getGravity_clamped_table (level : Int) (h : 1 ≤ level) :
    getGravity level = gravityTable.get? (min (level - 1) 19).toNat ∧
    getGravity 1 = some 1000 ∧ getGravity 20 = some 1 ∧ getGravity 25 = some 1 := by
  refine ⟨?_, by decide, by decide, by decide⟩
  unfold getGravity
  have hnn : ¬ (min (level - 1) 19 < 0) := by omega
  simp only [hnn, if_false]

/-- Closed instance of the C8 theorem at level 5. -/
theorem getGravity_clamped_table_witness :
    (1 : Int) ≤ 5 ∧ getGravity 5 = gravityTable.get? (min ((5 : Int) - 1) 19).toNat :=
  ⟨by decide, (getGravity_clamped_table 5 (by decide)).1⟩

/-- C4: on a board of `TOTAL_HEIGHT` rows, `clearLines` returns a board of
exactly `TOTAL_HEIGHT` rows again, and on a board with no full row it
returns the same board with a cleared count of 0. -/
theorem clearLines_height_and_idempotent (board : Board)
    (hlen : board.length = TOTAL_HEIGHT) :
    (clearLines board).1.length = TOTAL_HEIGHT ∧
    ((∀ row ∈ board, isFullRow row = false) → clearLines board = (board, 0)) := by
  have htake : board.take TOTAL_HEIGHT = board := by
    rw [← hlen]; exact List.take_length board
  constructor
  · have hfle : (board.filter (fun row => ! isFullRow row)).length ≤ TOTAL_HEIGHT := by
      calc (board.filter (fun row => ! isFullRow row)).length
          ≤ board.length := List.length_filter_le _ _
        _ = TOTAL_HEIGHT := hlen
    simp only [clearLines, htake, List.length_append, List.length_replicate]
    omega
  · intro hnf
    have hfilter : board.filter (fun row => ! isFullRow row) = board :=
      List.filter_eq_self.mpr (fun row hr => by simp [hnf row hr])
    have hcount : board.countP (fun row => isFullRow row) = 0 :=
      List.countP_eq_zero.mpr (fun row hr => by simp [hnf row hr])
    simp only [clearLines, htake, hfilter, hcount, hlen]
    simp

/-- Closed instance of the C4 theorem on the empty board. -/
theorem clearLines_height_and_idempotent_witness :
    createEmptyBoard.length = TOTAL_HEIGHT ∧
    (clearLines createEmptyBoard).1.length = TOTAL_HEIGHT :=
  ⟨by decide, (clearLines_height_and_idempotent createEmptyBoard (by decide)).1⟩

/-! ### Well-formed boards and cell lookup lemmas -/

/-- A board of the fixed dimensions of the data model. -/
def WF (board : Board) : Prop :=
  board.length = TOTAL_HEIGHT ∧ ∀ row ∈ board, row.length = BOARD_WIDTH

lemma cellAt_of_wf {board : Board} (hwf : WF board) {y x : Nat}
    (hy : y < TOTAL_HEIGHT) (hx : x < BOARD_WIDTH) :
    ∃ v, cellAt board y x = some v := by
  have hyb : y < board.length := by rw [hwf.1]; exact hy
  have hrow : board.get? y = some board[y] := by
    rw [List.get?_eq_getElem?]; exact List.getElem?_eq_getElem hyb
  have hxl : x < board[y].length := by
    rw [hwf.2 board[y] (List.getElem_mem hyb)]; exact hx
  refine ⟨board[y][x], ?_⟩
  rw [cellAt, hrow]
  simp only [Option.bind_eq_bind, Option.some_bind]
  rw [List.get?_eq_getElem?]
  exact List.getElem?_eq_getElem hxl

lemma cellOk_false_iff {board : Board} {p : Piece} (hwf : WF board) (c : Int × Int) :
    (cellOk board p c = false ↔
      (p.x + c.1 < 0 ∨ (BOARD_WIDTH : Int) ≤ p.x + c.1) ∨
      (p.y + c.2 < 0 ∨ (TOTAL_HEIGHT : Int) ≤ p.y + c.2) ∨
      ∃ v, cellAt board (p.y + c.2).toNat (p.x + c.1).toNat = some v ∧ v ≠ 0) := by
  simp only [cellOk]
  by_cases hx : p.x + c.1 < 0 ∨ (BOARD_WIDTH : Int) ≤ p.x + c.1
  · rw [if_pos hx]
    exact iff_of_true rfl (Or.inl hx)
  by_cases hy : p.y + c.2 < 0 ∨ (TOTAL_HEIGHT : Int) ≤ p.y + c.2
  · rw [if_neg hx, if_pos hy]
    exact iff_of_true rfl (Or.inr (Or.inl hy))
  rw [if_neg hx, if_neg hy]
  have hyn : (p.y + c.2).toNat < TOTAL_HEIGHT := by
    simp only [BOARD_WIDTH, TOTAL_HEIGHT, BOARD_HEIGHT, SPAWN_ROWS] at hx hy ⊢
    omega
  have hxn : (p.x + c.1).toNat < BOARD_WIDTH := by
    simp only [BOARD_WIDTH, TOTAL_HEIGHT, BOARD_HEIGHT, SPAWN_ROWS] at hx hy ⊢
    omega
  obtain ⟨v, hv⟩ := cellAt_of_wf hwf hyn hxn
  rw [hv]
  constructor
  · intro hbeq
    exact Or.inr (Or.inr ⟨v, rfl, beq_eq_false_iff_ne.mp hbeq⟩)
  · rintro (h | h | ⟨v', hv', hv0⟩)
    · exact absurd h hx
    · exact absurd h hy
    · have hvv : v = v' := Option.some_inj.mp hv'
      subst hvv
      exact beq_eq_false_iff_ne.mpr hv0

/-- C3: on a board of the fixed dimensions, `isValidPosition` returns false
exactly when some occupied cell of the piece is outside the grid
horizontally or vertically, or lands on a board cell holding a non-zero
value; otherwise it returns true. -/
theorem isValidPosition_characterization (board : Board) (p : Piece)
    (hlen : board.length = TOTAL_HEIGHT)
    (hrow : ∀ row ∈ board, row.length = BOARD_WIDTH) :
    (isValidPosition board p = false ↔
      ∃ c ∈ getPieceCells p.type p.rotation,
        (p.x + c.1 < 0 ∨ (BOARD_WIDTH : Int) ≤ p.x + c.1) ∨
        (p.y + c.2 < 0 ∨ (TOTAL_HEIGHT : Int) ≤ p.y + c.2) ∨
        ∃ v, cellAt board (p.y + c.2).toNat (p.x + c.1).toNat = some v ∧ v ≠ 0) := by
  have hwf : WF board := ⟨hlen, hrow⟩
  rw [isValidPosition, List.all_eq_false]
  refine exists_congr fun c => and_congr_right fun hc => ?_
  rw [Bool.not_eq_true]
  exact cellOk_false_iff hwf c

/-- Closed instance of the C3 theorem on the empty board and a freshly
spawned I piece. -/
theorem isValidPosition_characterization_witness :
    createEmptyBoard.length = TOTAL_HEIGHT ∧
    (isValidPosition createEmptyBoard (spawnTarget .I) = false ↔
      ∃ c ∈ getPieceCells (spawnTarget PieceType.I).type (spawnTarget PieceType.I).rotation,
        ((spawnTarget PieceType.I).x + c.1 < 0 ∨
          (BOARD_WIDTH : Int) ≤ (spawnTarget PieceType.I).x + c.1) ∨
        ((spawnTarget PieceType.I).y + c.2 < 0 ∨
          (TOTAL_HEIGHT : Int) ≤ (spawnTarget PieceType.I).y + c.2) ∨
        ∃ v, cellAt createEmptyBoard ((spawnTarget PieceType.I).y + c.2).toNat
              (((spawnTarget PieceType.I).x + c.1)).toNat = some v ∧ v ≠ 0) :=
  ⟨by decide,
   isValidPosition_characterization createEmptyBoard (spawnTarget .I) (by decide) (by decide)⟩

/-! ### Lemmas about placePiece -/

lemma wf_setCell {b : Board} (hwf : WF b) (y x v : Nat) : WF (setCell b y x v) := by
  unfold setCell
  cases hb : b.get? y with
  | none => exact hwf
  | some row =>
    have hrowmem : row ∈ b := List.get?_mem hb
    refine ⟨by rw [List.length_set]; exact hwf.1, fun r hr => ?_⟩
    rcases List.mem_or_eq_of_mem_set hr with h | h
    · exact hwf.2 r h
    · rw [h, List.length_set]
      exact hwf.2 row hrowmem

lemma cellAt_setCell_self {b : Board} (hwf : WF b) {y x : Nat} (v : Nat)
    (hy : y < TOTAL_HEIGHT) (hx : x < BOARD_WIDTH) :
    cellAt (setCell b y x v) y x = some v := by
  have hyb : y < b.length := by rw [hwf.1]; exact hy
  have hb : b.get? y = some b[y] := by
    rw [List.get?_eq_getElem?]; exact List.getElem?_eq_getElem hyb
  have hxl : x < b[y].length := by
    rw [hwf.2 b[y] (List.getElem_mem hyb)]; exact hx
  rw [setCell, hb, cellAt, List.get?_eq_getElem?, List.getElem?_set, if_pos rfl, if_pos hyb]
  simp only [Option.bind_eq_bind, Option.some_bind]
  rw [List.get?_eq_getElem?, List.getElem?_set, if_pos rfl, if_pos hxl]

lemma cellAt_setCell_other {b : Board} {y x y' x' : Nat} (v : Nat)
    (hne : y ≠ y' ∨ x ≠ x') :
    cellAt (setCell b y x v) y' x' = cellAt b y' x' := by
  unfold setCell
  cases hb : b.get? y with
  | none => rfl
  | some row =>
    rcases hne with h | h
    · rw [cellAt, cellAt, List.get?_eq_getElem?, List.get?_eq_getElem?,
        List.getElem?_set, if_neg h]
    · by_cases hyy : y = y'
      · subst hyy
        have hyb : y < b.length := by
          by_contra hcon
          rw [List.get?_eq_getElem?, List.getElem?_eq_none (by omega)] at hb
          exact Option.noConfusion hb
        have hby : b[y] = row := by
          rw [List.get?_eq_getElem?, List.getElem?_eq_getElem hyb] at hb
          exact Option.some_inj.mp hb
        rw [cellAt, cellAt, List.get?_eq_getElem?, List.get?_eq_getElem?,
          List.getElem?_set, if_pos rfl, if_pos hyb]
        rw [List.get?_eq_getElem?] at hb
        rw [hb]
        simp only [Option.bind_eq_bind, Option.some_bind]
        rw [List.get?_eq_getElem?, List.get?_eq_getElem?, List.getElem?_set, if_neg h]
      · rw [cellAt, cellAt, List.get?_eq_getElem?, List.get?_eq_getElem?,
          List.getElem?_set, if_neg hyy]

lemma wf_placeCell {b : Board} {p : Piece} (hwf : WF b) (c : Int × Int) :
    WF (placeCell p b c) := by
  simp only [placeCell]
  split
  · exact wf_setCell hwf _ _ _
  · exact hwf

lemma placeCell_keeps_color {b : Board} {p : Piece} {y x : Nat} (hwf : WF b)
    (c : Int × Int)
    (h : cellAt b y x = some (getPieceColor p.type)) :
    cellAt (placeCell p b c) y x = some (getPieceColor p.type) := by
  simp only [placeCell]
  split
  · rename_i hin
    by_cases heq : (p.y + c.2).toNat = y ∧ (p.x + c.1).toNat = x
    · rw [heq.1, heq.2]
      refine cellAt_setCell_self hwf _ ?_ ?_
      · rw [← heq.1]
        simp only [TOTAL_HEIGHT, BOARD_HEIGHT, SPAWN_ROWS] at hin ⊢
        omega
      · rw [← heq.2]
        simp only [BOARD_WIDTH] at hin ⊢
        omega
    · rw [cellAt_setCell_other _ (by tauto)]
      exact h
  · exact h

lemma placeFold_keeps_color {p : Piece} {y x : Nat} :
    ∀ (cs : List (Int × Int)) (b : Board), WF b →
      cellAt b y x = some (getPieceColor p.type) →
      cellAt (cs.foldl (placeCell p) b) y x = some (getPieceColor p.type) := by
  intro cs
  induction cs with
  | nil => intro b _ h; exact h
  | cons c rest ih =>
    intro b hwf h
    exact ih (placeCell p b c) (wf_placeCell hwf c) (placeCell_keeps_color hwf c h)

lemma placeFold_writes {p : Piece} :
    ∀ (cs : List (Int × Int)) (b : Board), WF b →
      ∀ c ∈ cs,
        0 ≤ p.y + c.2 → p.y + c.2 < (TOTAL_HEIGHT : Int) →
        0 ≤ p.x + c.1 → p.x + c.1 < (BOARD_WIDTH : Int) →
        cellAt (cs.foldl (placeCell p) b) (p.y + c.2).toNat (p.x + c.1).toNat =
          some (getPieceColor p.type) := by
  intro cs
  induction cs with
  | nil => intro b _ c hc; exact absurd hc (List.not_mem_nil c)
  | cons c' rest ih =>
    intro b hwf c hc hy0 hyT hx0 hxW
    rcases List.mem_cons.mp hc with heq | hmem
    · subst heq
      have hwrite : cellAt (placeCell p b c) (p.y + c.2).toNat (p.x + c.1).toNat =
          some (getPieceColor p.type) := by
        simp only [placeCell]
        rw [if_pos ⟨hy0, hyT, hx0, hxW⟩]
        refine cellAt_setCell_self hwf _ ?_ ?_
        · simp only [TOTAL_HEIGHT, BOARD_HEIGHT, SPAWN_ROWS] at hyT ⊢
          omega
        · simp only [BOARD_WIDTH] at hxW ⊢
          omega
      exact placeFold_keeps_color rest (placeCell p b c) (wf_placeCell hwf c) hwrite
    · exact ih (placeCell p b c') (wf_placeCell hwf c') c hmem hy0 hyT hx0 hxW

lemma getPieceColor_ne_zero (t : PieceType) : getPieceColor t ≠ 0 := by
  cases t <;> simp [getPieceColor]

/-- C5: placing a piece whose shape has at least one occupied cell and then
testing the very same piece with `isValidPosition` against the resulting
board yields false. -/
theorem placePiece_roundtrip_invalid (board : Board) (p : Piece)
    (hlen : board.length = TOTAL_HEIGHT)
    (hrow : ∀ row ∈ board, row.length = BOARD_WIDTH)
    (hne : getPieceCells p.type p.rotation ≠ []) :
    isValidPosition (placePiece board p) p = false := by
  have hwf : WF board := ⟨hlen, hrow⟩
  rw [isValidPosition, List.all_eq_false]
  by_cases hall : ∀ c ∈ getPieceCells p.type p.rotation,
      0 ≤ p.y + c.2 ∧ p.y + c.2 < (TOTAL_HEIGHT : Int) ∧
      0 ≤ p.x + c.1 ∧ p.x + c.1 < (BOARD_WIDTH : Int)
  · obtain ⟨c, hc⟩ := List.exists_mem_of_ne_nil _ hne
    obtain ⟨hy0, hyT, hx0, hxW⟩ := hall c hc
    have hcell := placeFold_writes (getPieceCells p.type p.rotation) board hwf c hc
      hy0 hyT hx0 hxW
    refine ⟨c, hc, ?_⟩
    rw [Bool.not_eq_true]
    simp only [cellOk]
    rw [if_neg (by omega), if_neg (by omega)]
    unfold placePiece
    rw [hcell]
    exact beq_eq_false_iff_ne.mpr (getPieceColor_ne_zero p.type)
  · push_neg at hall
    obtain ⟨c, hc, hout⟩ := hall
    refine ⟨c, hc, ?_⟩
    rw [Bool.not_eq_true]
    simp only [cellOk]
    by_cases hx : p.x + c.1 < 0 ∨ (BOARD_WIDTH : Int) ≤ p.x + c.1
    · rw [if_pos hx]
    · rw [if_neg hx, if_pos (by omega)]

/-- Closed instance of the C5 theorem: a T piece placed on the empty board. -/
theorem placePiece_roundtrip_invalid_witness :
    isValidPosition (placePiece createEmptyBoard (spawnTarget .T)) (spawnTarget .T) = false :=
  placePiece_roundtrip_invalid createEmptyBoard (spawnTarget .T)
    (by decide) (by decide) (by decide)

/-! ### Randomizer lemmas -/

lemma count_set (l : List PieceType) (n : Nat) (b : PieceType) (x : PieceType) :
    ∀ (h : n < l.length),
      (l.set n b).count x + (if l[n] = x then 1 else 0) =
        l.count x + (if b = x then 1 else 0) := by
  induction l generalizing n with
  | nil => intro h; exact absurd h (by simp)
  | cons a t ih =>
    intro h
    cases n with
    | zero =>
      simp only [List.set_cons_zero, List.getElem_cons_zero, List.count_cons]
      by_cases hax : a = x <;> by_cases hbx : b = x <;>
        simp [hax, hbx, beq_iff_eq] <;> omega
    | succ m =>
      have hm : m < t.length := by simpa using h
      have := ih m hm
      simp only [List.set_cons_succ, List.getElem_cons_succ, List.count_cons]
      by_cases hax : a = x <;> simp [hax, beq_iff_eq] <;> omega

lemma length_listSwap (l : List PieceType) (i j : Nat) :
    (listSwap l i j).length = l.length := by
  unfold listSwap
  split
  · simp [List.length_set]
  · rfl

lemma count_listSwap (l : List PieceType) (i j : Nat)
    (hi : i < l.length) (hj : j < l.length) (x : PieceType) :
    (listSwap l i j).count x = l.count x := by
  have hgi : l.get? i = some l[i] := by
    rw [List.get?_eq_getElem?]; exact List.getElem?_eq_getElem hi
  have hgj : l.get? j = some l[j] := by
    rw [List.get?_eq_getElem?]; exact List.getElem?_eq_getElem hj
  have h1 := count_set l i l[j] x hi
  have hj' : j < (l.set i l[j]).length := by rw [List.length_set]; exact hj
  have h2 := count_set (l.set i l[j]) j l[i] x hj'
  have hsetj : (l.set i l[j])[j] = l[j] := by
    rw [List.getElem_set]
    split <;> simp_all
  rw [hsetj] at h2
  unfold listSwap
  rw [hgi, hgj]
  show ((l.set i l[j]).set j l[i]).count x = l.count x
  split_ifs at h1 h2 <;> omega

lemma fyLoop_count (f : Nat → Nat) :
    ∀ (i k : Nat) (bag : List PieceType), i < bag.length →
      (∀ m, m < i → f (k + m) ≤ i - m) →
      ∀ x, (fyLoop f k i bag).count x = bag.count x := by
  intro i
  induction i with
  | zero => intro k bag _ _ x; rfl
  | succ n ih =>
    intro k bag hlen hrange x
    have hf0 : f k ≤ n + 1 := by
      have := hrange 0 (by omega)
      simpa using this
    have hswap := count_listSwap bag (n + 1) (f k) hlen (by omega) x
    rw [fyLoop]
    rw [ih (k + 1) (listSwap bag (n + 1) (f k))
      (by rw [length_listSwap]; omega)
      (fun m hm => by
        have := hrange (m + 1) (by omega)
        have harith : k + 1 + m = k + (m + 1) := by omega
        rw [harith]
        omega) x]
    exact hswap

lemma fyLoop_length (f : Nat → Nat) :
    ∀ (i k : Nat) (bag : List PieceType), (fyLoop f k i bag).length = bag.length := by
  intro i
  induction i with
  | zero => intro k bag; rfl
  | succ n ih =>
    intro k bag
    rw [fyLoop, ih, length_listSwap]

lemma fillBag_length (f : Nat → Nat) (pos : Nat) : (fillBag f pos).length = 7 := by
  rw [fillBag, fyLoop_length]
  rfl

lemma fillBag_count (f : Nat → Nat) (pos : Nat)
    (h : ∀ m, m < 6 → f (pos + m) ≤ 6 - m) (x : PieceType) :
    (fillBag f pos).count x = PIECE_TYPES.count x := by
  rw [fillBag]
  exact fyLoop_count f 6 pos PIECE_TYPES (by decide) h x

/-- Draws from a bag that is large enough never to trigger a refill pop the
bag from its end, in reverse order. -/
lemma drawsN_of_le (f : Nat → Nat) :
    ∀ (n : Nat) (bag : List PieceType) (pos : Nat), n ≤ bag.length →
      (drawsN f n ⟨bag, pos⟩).1 = bag.reverse.take n := by
  intro n
  induction n with
  | zero => intro bag pos _; rfl
  | succ m ih =>
    intro bag pos hle
    have hne : bag ≠ [] := by
      intro hnil
      rw [hnil] at hle
      simp at hle
    have hemp : bag.isEmpty = false := by
      rw [List.isEmpty_eq_false_iff_exists_mem]
      exact List.exists_mem_of_ne_nil bag hne
    have hrev : bag.reverse = bag.getLast hne :: bag.dropLast.reverse := by
      conv_lhs => rw [← List.dropLast_append_getLast hne]
      rw [List.reverse_append]
      rfl
    rw [drawsN]
    simp only [randNext, hemp, Bool.false_eq_true, if_false]
    rw [List.getLast?_eq_getLast bag hne]
    simp only [Option.getD_some]
    rw [ih bag.dropLast pos (by rw [List.length_dropLast]; omega)]
    rw [hrev, List.take_succ_cons]

/-- C6: immediately after `reset()`, for every in-range outcome of the
random index stream, 7 consecutive `next()` calls return each of the 7
piece kinds exactly once. -/
theorem bag_draws_are_permutation (f : Nat → Nat) (s : RandState)
    (h : ∀ m, m < 6 → f (s.pos + m) ≤ 6 - m) (t : PieceType) :
    ((drawsN f 7 (randReset s)).1).count t = 1 := by
  have hfill7 : (fillBag f s.pos).length = 7 := fillBag_length f s.pos
  have hne : fillBag f s.pos ≠ [] := by
    intro hnil
    rw [hnil] at hfill7
    simp at hfill7
  have hrev : (fillBag f s.pos).reverse =
      (fillBag f s.pos).getLast hne :: (fillBag f s.pos).dropLast.reverse := by
    conv_lhs => rw [← List.dropLast_append_getLast hne]
    rw [List.reverse_append]
    rfl
  rw [randReset, drawsN]
  simp only [randNext, List.isEmpty_nil, if_true]
  rw [List.getLast?_eq_getLast _ hne]
  simp only [Option.getD_some]
  rw [drawsN_of_le f 6 (fillBag f s.pos).dropLast (s.pos + 6)
    (by rw [List.length_dropLast, hfill7])]
  have htake : (fillBag f s.pos).dropLast.reverse.take 6 =
      (fillBag f s.pos).dropLast.reverse := by
    apply List.take_of_length_le
    rw [List.length_reverse, List.length_dropLast, hfill7]
  rw [htake]
  have : ((fillBag f s.pos).getLast hne :: (fillBag f s.pos).dropLast.reverse).count t =
      ((fillBag f s.pos).reverse).count t := by rw [hrev]
  rw [this, List.count_reverse, fillBag_count f s.pos h]
  cases t <;> decide

/-- Closed instance of the C6 theorem with the all-zero index stream. -/
theorem bag_draws_are_permutation_witness :
    (∀ m, m < 6 → (fun _ => 0) ((⟨[], 0⟩ : RandState).pos + m) ≤ 6 - m) ∧
    ((drawsN (fun _ => 0) 7 (randReset ⟨[], 0⟩)).1).count PieceType.I = 1 :=
  ⟨fun m _ => Nat.zero_le _,
   bag_draws_are_permutation (fun _ => 0) ⟨[], 0⟩ (fun m _ => Nat.zero_le _) PieceType.I⟩

/-! ### Peek against next -/

/-- While the scratch bag still holds enough kinds, the peek loop pops it
from the end without consuming the random stream. -/
lemma peekLoop_of_le (f : Nat → Nat) :
    ∀ (n : Nat) (temp : List PieceType) (pos : Nat), n ≤ temp.length →
      peekLoop f pos n temp = (temp.reverse.take n, pos) := by
  intro n
  induction n with
  | zero => intro temp pos _; rfl
  | succ m ih =>
    intro temp pos hle
    have hne : temp ≠ [] := by
      intro hnil
      rw [hnil] at hle
      simp at hle
    have hemp : temp.isEmpty = false := by
      rw [List.isEmpty_eq_false_iff_exists_mem]
      exact List.exists_mem_of_ne_nil temp hne
    have hrev : temp.reverse = temp.getLast hne :: temp.dropLast.reverse := by
      conv_lhs => rw [← List.dropLast_append_getLast hne]
      rw [List.reverse_append]
      rfl
    rw [peekLoop]
    simp only [hemp, Bool.false_eq_true, if_false]
    rw [ih temp.dropLast pos (by rw [List.length_dropLast]; omega)]
    rw [List.getLast?_eq_getLast temp hne]
    simp only [Option.getD_some]
    rw [hrev, List.take_succ_cons]

/-- C7 (amended): when `n` does not exceed the kinds remaining in the bag,
`peek(n)` followed by `next()` n times yields exactly the sequence `peek`
returned. -/
theorem peek_matches_next_within_bag (f : Nat → Nat) (s : RandState) (n : Nat)
    (h : n ≤ s.bag.length) :
    (randPeek f s n).1 = (drawsN f n ((randPeek f s n).2)).1 := by
  rw [randPeek]
  simp only
  rw [peekLoop_of_le f n s.bag s.pos h]
  exact (drawsN_of_le f n s.bag s.pos h).symm

/-- Index stream used by the C7 counterexample: the first refill (six
values) draws all zeroes, the next refill starts with a different index. -/
def c7Stream : Nat → Nat := fun n => if n = 6 then 1 else 0

/-- C7 counterexample: starting from an empty bag (0 kinds remaining, so a
1-kind peek crosses a refill boundary), `peek(1)` returns the I kind but the
following `next()` returns the O kind: the sequences differ because the peek
refill and the real refill consume independent shuffle draws. -/
theorem peek_crosses_refill_counterexample :
    (randPeek c7Stream ⟨[], 0⟩ 1).1 = [PieceType.I] ∧
    (drawsN c7Stream 1 ((randPeek c7Stream ⟨[], 0⟩ 1).2)).1 = [PieceType.O] ∧
    ([PieceType.I] : List PieceType) ≠ [PieceType.O] := by
  refine ⟨by decide, by decide, by decide⟩

/-- Closed instance of the amended C7 theorem on a two-kind bag. -/
theorem peek_matches_next_within_bag_witness :
    (2 ≤ (⟨[PieceType.I, PieceType.O], 3⟩ : RandState).bag.length) ∧
    (randPeek c7Stream ⟨[PieceType.I, PieceType.O], 3⟩ 2).1 =
      (drawsN c7Stream 2 ((randPeek c7Stream ⟨[PieceType.I, PieceType.O], 3⟩ 2).2)).1 :=
  ⟨by decide,
   peek_matches_next_within_bag c7Stream ⟨[PieceType.I, PieceType.O], 3⟩ 2 (by decide)⟩

/-! ### Horizontal moves and the lock countdown (C1) -/

/-- A PLAYING state with the O piece grounded on the floor of an empty board
and a lock countdown already in progress (100 ms accumulated). -/
def lockingEngine : Engine :=
  { state :=
      { board := createEmptyBoard
        currentPiece := some { type := .O, x := 4, y := 22, rotation := 0 }
        nextQueue := [.I, .O, .T, .S, .Z]
        holdPiece := none
        canHold := true
        score := 0
        level := 1
        lines := 0
        gameOver := false
        paused := false
        playing := false }
    status := PLAYING
    rand := ⟨[.J, .L], 6⟩
    gravityTimer := 0
    lockTimer := 100
    isLocking := true
    softDropping := false }

/-- C1 counterexample: in a PLAYING state with an in-progress lock countdown
(100 ms accumulated, locking flag set) a MOVE_LEFT whose destination is
valid succeeds, yet afterwards the lock timer is still 100 and the piece is
still in the locking state: a successful horizontal move does not cancel
the countdown the way a successful downward move does. -/
theorem horizontal_move_keeps_lock_counterexample :
    lockingEngine.status = PLAYING ∧
    lockingEngine.state.currentPiece = some { type := .O, x := 4, y := 22, rotation := 0 } ∧
    lockingEngine.isLocking = true ∧
    lockingEngine.lockTimer = 100 ∧
    isValidPosition lockingEngine.state.board { type := .O, x := 3, y := 22, rotation := 0 } = true ∧
    (handleAction (fun _ => 0) MOVE_LEFT lockingEngine).state.currentPiece =
      some { type := .O, x := 3, y := 22, rotation := 0 } ∧
    ¬ ((handleAction (fun _ => 0) MOVE_LEFT lockingEngine).lockTimer = 0 ∧
       (handleAction (fun _ => 0) MOVE_LEFT lockingEngine).isLocking = false) := by
  refine ⟨rfl, rfl, rfl, rfl, by decide, by decide, ?_⟩
  intro h
  have h2 := h.2
  rw [show (handleAction (fun _ => 0) MOVE_LEFT lockingEngine).isLocking = true
    from by decide] at h2
  exact Bool.noConfusion h2

/-- C1 (amended): while PLAYING with an active piece, a successful
MOVE_LEFT or MOVE_RIGHT translates the piece but leaves the lock countdown
untouched: the lock timer and the locking flag keep their previous values
(only successful downward moves and rotations reset them). -/
theorem horizontal_move_preserves_lock (f : Nat → Nat) (e : Engine) (p : Piece) (a : Nat)
    (hs : e.status = PLAYING) (hp : e.state.currentPiece = some p)
    (ha : a = MOVE_LEFT ∨ a = MOVE_RIGHT)
    (hv : isValidPosition e.state.board
      { p with x := p.x + (if a = MOVE_LEFT then -1 else 1) } = true) :
    (handleAction f a e).lockTimer = e.lockTimer ∧
    (handleAction f a e).isLocking = e.isLocking ∧
    (handleAction f a e).state.currentPiece =
      some { p with x := p.x + (if a = MOVE_LEFT then -1 else 1) } ∧
    (handleAction f a e).status = PLAYING := by
  have hs0 : e.status ≠ ATTRACT := by rw [hs]; decide
  have hs3 : e.status ≠ GAME_OVER := by rw [hs]; decide
  have hs2 : e.status ≠ PAUSED := by rw [hs]; decide
  rcases ha with ha | ha <;> subst ha
  · have hv' : isValidPosition e.state.board
        { p with x := p.x + (-1 : Int) } = true := by
      simpa [MOVE_LEFT] using hv
    simp only [handleAction, if_neg hs0, if_neg hs3, if_neg hs2, MOVE_LEFT]
    simp [movePiece, hp, hv', hs]
  · have hv' : isValidPosition e.state.board
        { p with x := p.x + (1 : Int) } = true := by
      simpa [MOVE_RIGHT, MOVE_LEFT] using hv
    simp only [handleAction, if_neg hs0, if_neg hs3, if_neg hs2, MOVE_RIGHT]
    simp [movePiece, hp, hv', hs, MOVE_LEFT]

/-- Closed instance of the amended C1 theorem on the locking engine state. -/
theorem horizontal_move_preserves_lock_witness :
    (handleAction (fun _ => 0) MOVE_LEFT lockingEngine).lockTimer = lockingEngine.lockTimer ∧
    (handleAction (fun _ => 0) MOVE_LEFT lockingEngine).isLocking = lockingEngine.isLocking ∧
    (handleAction (fun _ => 0) MOVE_LEFT lockingEngine).state.currentPiece =
      some { ({ type := .O, x := 4, y := 22, rotation := 0 } : Piece) with
              x := ({ type := .O, x := 4, y := 22, rotation := 0 } : Piece).x +
                (if MOVE_LEFT = MOVE_LEFT then -1 else 1) } ∧
    (handleAction (fun _ => 0) MOVE_LEFT lockingEngine).status = PLAYING :=
  horizontal_move_preserves_lock (fun _ => 0) lockingEngine
    { type := .O, x := 4, y := 22, rotation := 0 } MOVE_LEFT rfl rfl (Or.inl rfl) (by decide)

/-! ### Hold into a blocked position (C10) -/

/-- C10: a HOLD with an occupied hold slot whose held kind does not fit at
the spawn position ends in GAME_OVER, but the hold slot has already been
overwritten with the formerly active kind, the active piece is unchanged,
and `canHold` is still true. -/
theorem blocked_hold_swap_not_atomic (f : Nat → Nat) (e : Engine) (p : Piece) (h : PieceType)
    (hs : e.status = PLAYING) (hp : e.state.currentPiece = some p)
    (hch : e.state.canHold = true) (hh : e.state.holdPiece = some h)
    (hv : isValidPosition e.state.board (spawnTarget h) = false) :
    (handleAction f HOLD e).status = GAME_OVER ∧
    (handleAction f HOLD e).state.gameOver = true ∧
    (handleAction f HOLD e).state.holdPiece = some p.type ∧
    (handleAction f HOLD e).state.currentPiece = some p ∧
    (handleAction f HOLD e).state.canHold = true := by
  have hs0 : e.status ≠ ATTRACT := by rw [hs]; decide
  have hs3 : e.status ≠ GAME_OVER := by rw [hs]; decide
  have hs2 : e.status ≠ PAUSED := by rw [hs]; decide
  simp only [handleAction, if_neg hs0, if_neg hs3, if_neg hs2]
  simp only [HOLD]
  simp only [holdPiece, hp, hch, hh]
  simp only [Bool.not_true, Bool.false_eq_true, if_false, hv]
  simp [hp, hch]

/-- A board with every cell occupied. -/
def fullBoard : Board :=
  List.replicate TOTAL_HEIGHT (List.replicate BOARD_WIDTH 1)

/-- A PLAYING state holding the I kind with a full board, so the held kind
cannot re-enter at the spawn position. -/
def blockedHoldEngine : Engine :=
  { state :=
      { board := fullBoard
        currentPiece := some { type := .T, x := 4, y := 2, rotation := 0 }
        nextQueue := [.I, .O, .T, .S, .Z]
        holdPiece := some .I
        canHold := true
        score := 0
        level := 1
        lines := 0
        gameOver := false
        paused := false
        playing := false }
    status := PLAYING
    rand := ⟨[.J, .L], 6⟩
    gravityTimer := 0
    lockTimer := 0
    isLocking := false
    softDropping := false }

/-- Closed instance of the C10 theorem on the blocked hold state. -/
theorem blocked_hold_swap_not_atomic_witness :
    (handleAction (fun _ => 0) HOLD blockedHoldEngine).status = GAME_OVER ∧
    (handleAction (fun _ => 0) HOLD blockedHoldEngine).state.gameOver = true ∧
    (handleAction (fun _ => 0) HOLD blockedHoldEngine).state.holdPiece =
      some ({ type := .T, x := 4, y := 2, rotation := 0 } : Piece).type ∧
    (handleAction (fun _ => 0) HOLD blockedHoldEngine).state.currentPiece =
      some { type := .T, x := 4, y := 2, rotation := 0 } ∧
    (handleAction (fun _ => 0) HOLD blockedHoldEngine).state.canHold = true :=
  blocked_hold_swap_not_atomic (fun _ => 0) blockedHoldEngine
    { type := .T, x := 4, y := 2, rotation := 0 } .I rfl rfl rfl rfl (by decide)

/-! ### Engine invariants -/

/-- Structural invariant of reachable engine states: a legal status value, a
level at least 1, a non-negative line count, and a 5-deep next queue. -/
def Inv (e : Engine) : Prop :=
  (e.status = ATTRACT ∨ e.status = PLAYING ∨ e.status = PAUSED ∨ e.status = GAME_OVER) ∧
  1 ≤ e.state.level ∧ 0 ≤ e.state.lines ∧ e.state.nextQueue.length = 5

lemma drawsN_length (f : Nat → Nat) :
    ∀ (n : Nat) (s : RandState), (drawsN f n s).1.length = n := by
  intro n
  induction n with
  | zero => intro s; rfl
  | succ m ih =>
    intro s
    rw [drawsN]
    simp only [List.length_cons, ih]

lemma inv_mkEngine (f : Nat → Nat) : Inv (mkEngine f) := by
  refine ⟨Or.inl rfl, by norm_num [mkEngine, createInitialState], by norm_num [mkEngine, createInitialState], ?_⟩
  simp [mkEngine, createInitialState, drawsN_length]

lemma spawnPiece_inv {f : Nat → Nat} {e : Engine} (h : Inv e) : Inv (spawnPiece f e).2 := by
  obtain ⟨hst, hlev, hlin, hq⟩ := h
  rcases hq5 : e.state.nextQueue with _ | ⟨t, rest⟩
  · rw [hq5] at hq
    simp at hq
  · have hrest : rest.length = 4 := by
      rw [hq5] at hq
      simpa using hq
    simp only [spawnPiece, hq5]
    by_cases hv : isValidPosition e.state.board (spawnTarget t) = true
    · rw [if_neg (not_not_intro hv)]
      exact ⟨hst, hlev, hlin, by simp [hrest]⟩
    · rw [if_pos hv]
      exact ⟨Or.inr (Or.inr (Or.inr rfl)), hlev, hlin, by simp [hrest]⟩

lemma movePiece_inv {dx dy : Int} {e : Engine} (h : Inv e) : Inv (movePiece dx dy e).2 := by
  obtain ⟨hst, hlev, hlin, hq⟩ := h
  rcases hcp : e.state.currentPiece with _ | p
  · simp only [movePiece, hcp]
    exact ⟨hst, hlev, hlin, hq⟩
  · simp only [movePiece, hcp]
    split_ifs with h1 h2
    · exact ⟨hst, hlev, hlin, hq⟩
    · exact ⟨hst, hlev, hlin, hq⟩
    · exact ⟨hst, hlev, hlin, hq⟩

lemma rotatePiece_inv {d : Int} {e : Engine} (h : Inv e) : Inv (rotatePiece d e).2 := by
  obtain ⟨hst, hlev, hlin, hq⟩ := h
  rcases hcp : e.state.currentPiece with _ | p
  · simp only [rotatePiece, hcp]
    exact ⟨hst, hlev, hlin, hq⟩
  · simp only [rotatePiece, hcp]
    rcases htk : tryKicks e.state.board p ((((p.rotation : Int) + d + 4) % 4).toNat)
        (getWallKicks p.type p.rotation ((((p.rotation : Int) + d + 4) % 4).toNat)) with _ | np
    · simp only [htk]
      exact ⟨hst, hlev, hlin, hq⟩
    · simp only [htk]
      exact ⟨hst, hlev, hlin, hq⟩

lemma lockPiece_inv {f : Nat → Nat} {e : Engine} (h : Inv e) : Inv (lockPiece f e) := by
  obtain ⟨hst, hlev, hlin, hq⟩ := h
  rcases hcp : e.state.currentPiece with _ | p
  · simp only [lockPiece, hcp]
    exact ⟨hst, hlev, hlin, hq⟩
  · simp only [lockPiece, hcp]
    split_ifs with hlc
    · have hl0 : 0 ≤ e.state.lines + ((clearLines (placePiece e.state.board p)).2 : Int) := by
        omega
      have hfd : 0 ≤ Int.fdiv (e.state.lines + ((clearLines (placePiece e.state.board p)).2 : Int))
          (LINES_PER_LEVEL : Int) :=
        Int.fdiv_nonneg hl0 (by norm_num [LINES_PER_LEVEL])
      refine spawnPiece_inv ⟨hst, ?_, hl0, hq⟩
      show 1 ≤ calculateLevel
        (e.state.lines + ((clearLines (placePiece e.state.board p)).2 : Int)) 1
      simp only [calculateLevel]
      omega
    · exact spawnPiece_inv ⟨hst, hlev, hlin, hq⟩

lemma hardDrop_inv {f : Nat → Nat} {e : Engine} (h : Inv e) : Inv (hardDrop f e) := by
  obtain ⟨hst, hlev, hlin, hq⟩ := h
  rcases hcp : e.state.currentPiece with _ | p
  · simp only [hardDrop, hcp]
    exact ⟨hst, hlev, hlin, hq⟩
  · simp only [hardDrop, hcp]
    exact lockPiece_inv ⟨hst, hlev, hlin, hq⟩

lemma holdPiece_inv {f : Nat → Nat} {e : Engine} (h : Inv e) : Inv (holdPiece f e) := by
  obtain ⟨hst, hlev, hlin, hq⟩ := h
  rcases hcp : e.state.currentPiece with _ | p
  · simp only [holdPiece, hcp]
    exact ⟨hst, hlev, hlin, hq⟩
  · simp only [holdPiece, hcp]
    by_cases hch : e.state.canHold = true
    · rw [if_neg (not_not_intro hch)]
      rcases hh : e.state.holdPiece with _ | held
      · simp only [hh]
        have hsp := spawnPiece_inv (f := f)
          (e := { e with state :=
            { e.state with currentPiece := some p, holdPiece := some p.type } })
          ⟨hst, hlev, hlin, hq⟩
        exact ⟨hsp.1, hsp.2.1, hsp.2.2.1, hsp.2.2.2⟩
      · simp only [hh]
        by_cases hv : isValidPosition
            ({ e.state with holdPiece := some p.type } : GameState).board
            (spawnTarget held) = true
        · rw [if_neg (not_not_intro hv)]
          exact ⟨hst, hlev, hlin, hq⟩
        · rw [if_pos hv]
          exact ⟨Or.inr (Or.inr (Or.inr rfl)), hlev, hlin, hq⟩
    · rw [if_pos hch]
      exact ⟨hst, hlev, hlin, hq⟩

lemma pause_inv {e : Engine} (h : Inv e) : Inv (pause e) := by
  obtain ⟨hst, hlev, hlin, hq⟩ := h
  simp only [pause]
  split_ifs with h1 h2
  · exact ⟨Or.inr (Or.inr (Or.inl rfl)), hlev, hlin, hq⟩
  · exact ⟨Or.inr (Or.inl rfl), hlev, hlin, hq⟩
  · exact ⟨hst, hlev, hlin, hq⟩

lemma start_inv {f : Nat → Nat} {e : Engine} : Inv (start f e) := by
  refine spawnPiece_inv ⟨Or.inr (Or.inl rfl), ?_, ?_, ?_⟩
  · simp [createInitialState]
  · simp [createInitialState]
  · simp [createInitialState, drawsN_length]

lemma handleAction_inv {f : Nat → Nat} {a : Nat} {e : Engine} (h : Inv e) :
    Inv (handleAction f a e) := by
  unfold handleAction
  split_ifs with h0 h3 h2
  · exact start_inv
  · exact h
  · exact start_inv
  · exact h
  · exact pause_inv h
  · exact h
  · rcases a with _ | _ | _ | _ | _ | _ | _ | _ | _ | n
    · exact movePiece_inv h
    · exact movePiece_inv h
    · obtain ⟨hst, hlev, hlin, hq⟩ := h
      exact ⟨hst, hlev, hlin, hq⟩
    · exact hardDrop_inv h
    · exact rotatePiece_inv h
    · exact rotatePiece_inv h
    · exact holdPiece_inv h
    · exact pause_inv h
    · exact start_inv
    · exact h

lemma handleActionRelease_inv {a : Nat} {e : Engine} (h : Inv e) :
    Inv (handleActionRelease a e) := by
  unfold handleActionRelease
  split_ifs with h2
  · obtain ⟨hst, hlev, hlin, hq⟩ := h
    exact ⟨hst, hlev, hlin, hq⟩
  · exact h

lemma postGravity_inv {dt : Rat} {e : Engine} (h : Inv e) : Inv (postGravity dt e) := by
  obtain ⟨hst, hlev, hlin, hq⟩ := h
  have hmv := @movePiece_inv 0 1 { e with gravityTimer := 0 } ⟨hst, hlev, hlin, hq⟩
  obtain ⟨m1, m2, m3, m4⟩ := hmv
  simp only [postGravity]
  split_ifs <;>
    first
      | exact ⟨m1, m2, m3, m4⟩
      | exact ⟨hst, hlev, hlin, hq⟩

lemma update_inv {f : Nat → Nat} {dt : Rat} {e : Engine} (h : Inv e) :
    Inv (update f dt e) := by
  unfold update
  by_cases hs1 : e.status ≠ PLAYING
  · rw [if_pos hs1]
    exact h
  · rw [if_neg hs1]
    rcases hcp : e.state.currentPiece with _ | p
    · simp only [hcp]
      exact h
    · simp only [hcp]
      have h1 := @postGravity_inv dt e h
      obtain ⟨g1, g2, g3, g4⟩ := h1
      split_ifs with hl hlt
      · exact lockPiece_inv ⟨g1, g2, g3, g4⟩
      · exact ⟨g1, g2, g3, g4⟩
      · exact ⟨g1, g2, g3, g4⟩

/-- Every reachable engine state satisfies the structural invariant. -/
lemma reachable_inv {f : Nat → Nat} {e : Engine} (h : Reachable f e) : Inv e := by
  induction h with
  | init => exact inv_mkEngine f
  | action a _ ih => exact handleAction_inv ih
  | release a _ ih => exact handleActionRelease_inv ih
  | tick dt _ ih => exact update_inv ih

/-- C9: for a level at most 0 the gravity-table index `min(level - 1, 19)`
is negative and the lookup yields no value; in the engine this branch is
unreachable because every reachable state has level at least 1, and for any
such level the lookup succeeds. -/
theorem getGravity_partiality_unreachable :
    (∀ level : Int, level ≤ 0 → getGravity level = none) ∧
    (∀ (f : Nat → Nat) (e : Engine), Reachable f e → 1 ≤ e.state.level) ∧
    (∀ level : Int, 1 ≤ level → (getGravity level).isSome = true) := by
  refine ⟨?_, ?_, ?_⟩
  · intro level hle
    unfold getGravity
    have hneg : min (level - 1) 19 < 0 := by omega
    simp only [hneg, if_true]
  · intro f e h
    exact (reachable_inv h).2.1
  · intro level hge
    unfold getGravity
    have hnn : ¬ (min (level - 1) 19 < 0) := by omega
    simp only [hnn, if_false]
    have hlt : (min (level - 1) 19).toNat < 20 := by omega
    have : ∀ n, n < 20 → (gravityTable.get? n).isSome = true := by decide
    exact this _ hlt

/-- Closed instance of the C9 theorem: level 0 yields no value, the freshly
constructed engine has level at least 1, and level 1 looks up a value. -/
theorem getGravity_partiality_unreachable_witness :
    getGravity 0 = none ∧
    1 ≤ (mkEngine (fun _ => 0)).state.level ∧
    (getGravity 1).isSome = true :=
  ⟨getGravity_partiality_unreachable.1 0 (by decide),
   getGravity_partiality_unreachable.2.1 (fun _ => 0) (mkEngine (fun _ => 0)) Reachable.init,
   getGravity_partiality_unreachable.2.2 1 (by decide)⟩

/-! ### Game over happens only on spawn failure (C2) -/

/-- The spawn that `spawnPiece` is about to perform would fail: the queue
head placed at the spawn position is invalid against the given board. -/
def spawnWouldFail (board : Board) (queue : List PieceType) : Prop :=
  ∃ t rest, queue = t :: rest ∧ isValidPosition board (spawnTarget t) = false

/-- The action would make this very call transition to GAME_OVER: a
HARD_DROP whose post-lock spawn fails, or a HOLD (with holding allowed)
whose re-entering kind fails the spawn-position check. -/
def actionTrigger (a : Nat) (e : Engine) : Prop :=
  e.status = PLAYING ∧
  ∃ p, e.state.currentPiece = some p ∧
    ((a = HARD_DROP ∧
        spawnWouldFail
          (lockedBoard e.state.board { p with y := getGhostPosition e.state.board p })
          e.state.nextQueue) ∨
     (a = HOLD ∧ e.state.canHold = true ∧
        ((∃ hk, e.state.holdPiece = some hk ∧
            isValidPosition e.state.board (spawnTarget hk) = false) ∨
         (e.state.holdPiece = none ∧ spawnWouldFail e.state.board e.state.nextQueue))))

/-- The update would make this very call transition to GAME_OVER: after the
gravity phase the piece is in the locking state, the lock countdown reaches
`LOCK_DELAY` with this `dt`, and the spawn after committing the piece
fails. -/
def updateTrigger (dt : Rat) (e : Engine) : Prop :=
  e.status = PLAYING ∧ e.state.currentPiece ≠ none ∧
  (postGravity dt e).isLocking = true ∧
  (LOCK_DELAY : Rat) ≤ (postGravity dt e).lockTimer + dt ∧
  ∃ p, (postGravity dt e).state.currentPiece = some p ∧
    spawnWouldFail (lockedBoard (postGravity dt e).state.board p)
      (postGravity dt e).state.nextQueue

lemma movePiece_status {dx dy : Int} {e : Engine} :
    (movePiece dx dy e).2.status = e.status := by
  rcases hcp : e.state.currentPiece with _ | p
  · simp only [movePiece, hcp]
  · simp only [movePiece, hcp]
    split_ifs <;> rfl

lemma rotatePiece_status {d : Int} {e : Engine} :
    (rotatePiece d e).2.status = e.status := by
  rcases hcp : e.state.currentPiece with _ | p
  · simp only [rotatePiece, hcp]
  · simp only [rotatePiece, hcp]
    rcases htk : tryKicks e.state.board p ((((p.rotation : Int) + d + 4) % 4).toNat)
        (getWallKicks p.type p.rotation ((((p.rotation : Int) + d + 4) % 4).toNat)) with _ | np
    · simp only [htk]
    · simp only [htk]

lemma movePiece_piece {dx dy : Int} {e : Engine} {p : Piece}
    (hp : e.state.currentPiece = some p) :
    ∃ q, (movePiece dx dy e).2.state.currentPiece = some q := by
  simp only [movePiece, hp]
  split_ifs
  · exact ⟨_, rfl⟩
  · exact ⟨_, rfl⟩
  · exact ⟨p, hp⟩

lemma postGravity_status {dt : Rat} {e : Engine} :
    (postGravity dt e).status = e.status := by
  simp only [postGravity]
  split_ifs <;>
    first
      | exact movePiece_status
      | rfl

lemma postGravity_piece {dt : Rat} {e : Engine} {p : Piece}
    (hp : e.state.currentPiece = some p) :
    ∃ q, (postGravity dt e).state.currentPiece = some q := by
  have hmv := @movePiece_piece 0 1 { e with gravityTimer := 0 } p hp
  obtain ⟨q, hq⟩ := hmv
  simp only [postGravity]
  split_ifs <;>
    first
      | exact ⟨q, hq⟩
      | exact ⟨p, hp⟩

lemma handleActionRelease_status {a : Nat} {e : Engine} :
    (handleActionRelease a e).status = e.status := by
  unfold handleActionRelease
  split_ifs <;> rfl

lemma spawn_on_empty_valid (t : PieceType) :
    isValidPosition createEmptyBoard (spawnTarget t) = true := by
  cases t <;> decide

lemma spawnPiece_status_iff {f : Nat → Nat} {e : Engine} (hngo : e.status ≠ GAME_OVER) :
    ((spawnPiece f e).2.status = GAME_OVER ↔
      spawnWouldFail e.state.board e.state.nextQueue) := by
  rcases hq : e.state.nextQueue with _ | ⟨t, rest⟩
  · simp only [spawnPiece, hq]
    constructor
    · intro h
      exact absurd h hngo
    · rintro ⟨t', rest', hq', -⟩
      exact List.noConfusion hq'
  · simp only [spawnPiece, hq]
    by_cases hv : isValidPosition e.state.board (spawnTarget t) = true
    · rw [if_neg (not_not_intro hv)]
      constructor
      · intro h
        exact absurd h hngo
      · rintro ⟨t', rest', hq', hinv⟩
        obtain ⟨ht, -⟩ := List.cons.inj hq'
        rw [← ht] at hinv
        rw [hv] at hinv
        exact Bool.noConfusion hinv
    · rw [if_pos hv]
      constructor
      · intro _
        exact ⟨t, rest, rfl, Bool.eq_false_iff.mpr hv⟩
      · intro _
        rfl

lemma lockPiece_status_iff {f : Nat → Nat} {e : Engine} {p : Piece}
    (hp : e.state.currentPiece = some p) (hngo : e.status ≠ GAME_OVER) :
    ((lockPiece f e).status = GAME_OVER ↔
      spawnWouldFail (lockedBoard e.state.board p) e.state.nextQueue) := by
  simp only [lockPiece, hp]
  split_ifs with hlc
  · exact spawnPiece_status_iff hngo
  · exact spawnPiece_status_iff hngo

lemma hardDrop_status_iff {f : Nat → Nat} {e : Engine} (hngo : e.status ≠ GAME_OVER) :
    ((hardDrop f e).status = GAME_OVER ↔
      ∃ p, e.state.currentPiece = some p ∧
        spawnWouldFail
          (lockedBoard e.state.board { p with y := getGhostPosition e.state.board p })
          e.state.nextQueue) := by
  rcases hcp : e.state.currentPiece with _ | p
  · simp only [hardDrop, hcp]
    constructor
    · intro h
      exact absurd h hngo
    · rintro ⟨p, hp, -⟩
      exact Option.noConfusion hp
  · simp only [hardDrop, hcp]
    have hiff := lockPiece_status_iff (f := f)
      (e := { e with state := { e.state with
        currentPiece := some { p with y := getGhostPosition e.state.board p },
        score := e.state.score + (getGhostPosition e.state.board p - p.y) * 2 } })
      (p := { p with y := getGhostPosition e.state.board p }) rfl (by exact hngo)
    constructor
    · intro h
      exact ⟨p, rfl, hiff.mp h⟩
    · rintro ⟨p', hp', hswf⟩
      obtain rfl := Option.some_inj.mp hp'
      exact hiff.mpr hswf

lemma holdPiece_status_iff {f : Nat → Nat} {e : Engine} (hngo : e.status ≠ GAME_OVER) :
    ((holdPiece f e).status = GAME_OVER ↔
      ∃ p, e.state.currentPiece = some p ∧ e.state.canHold = true ∧
        ((∃ hk, e.state.holdPiece = some hk ∧
            isValidPosition e.state.board (spawnTarget hk) = false) ∨
         (e.state.holdPiece = none ∧
            spawnWouldFail e.state.board e.state.nextQueue))) := by
  rcases hcp : e.state.currentPiece with _ | p
  · simp only [holdPiece, hcp]
    constructor
    · intro h
      exact absurd h hngo
    · rintro ⟨p, hp, -⟩
      exact Option.noConfusion hp
  · simp only [holdPiece, hcp]
    by_cases hch : e.state.canHold = true
    · rw [if_neg (not_not_intro hch)]
      rcases hh : e.state.holdPiece with _ | held
      · simp only [hh]
        have hiff := spawnPiece_status_iff (f := f)
          (e := { e with state :=
            { e.state with currentPiece := some p, holdPiece := some p.type } })
          (by exact hngo)
        constructor
        · intro hgo
          have hswf := hiff.mp hgo
          exact ⟨p, rfl, hch, Or.inr ⟨by trivial, hswf⟩⟩
        · rintro ⟨p', hp', -, (⟨hk, hhk, -⟩ | ⟨-, hswf⟩)⟩
          · exact Option.noConfusion hhk
          · exact hiff.mpr hswf
      · simp only [hh]
        by_cases hv : isValidPosition e.state.board (spawnTarget held) = true
        · rw [if_neg (not_not_intro hv)]
          constructor
          · intro h
            exact absurd h hngo
          · rintro ⟨p', hp', -, (⟨hk, hhk, hkinv⟩ | ⟨hnone, -⟩)⟩
            · obtain rfl := Option.some_inj.mp hhk
              rw [hv] at hkinv
              exact Bool.noConfusion hkinv
            · exact Option.noConfusion hnone
        · rw [if_pos hv]
          constructor
          · intro _
            exact ⟨p, rfl, hch, Or.inl ⟨held, rfl, Bool.eq_false_iff.mpr hv⟩⟩
          · intro _
            rfl
    · rw [if_pos hch]
      constructor
      · intro h
        exact absurd h hngo
      · rintro ⟨p', hp', hch', -⟩
        exact absurd hch' hch

lemma start_status {f : Nat → Nat} {e : Engine} : (start f e).status = PLAYING := by
  rcases hd : (drawsN f 5 (randReset e.rand)).1 with _ | ⟨t, rest⟩
  · exfalso
    have hlen := drawsN_length f 5 (randReset e.rand)
    rw [hd] at hlen
    simp at hlen
  · simp only [start, createInitialState, spawnPiece, hd]
    rw [if_neg (not_not_intro (spawn_on_empty_valid t))]

lemma pause_status_ne_go {e : Engine} (h : e.status ≠ GAME_OVER) :
    (pause e).status ≠ GAME_OVER := by
  unfold pause
  split_ifs with h1 h2
  · exact (by decide : PAUSED ≠ GAME_OVER)
  · exact (by decide : PLAYING ≠ GAME_OVER)
  · exact h

lemma start_status_ne_go {f : Nat → Nat} {e : Engine} :
    (start f e).status ≠ GAME_OVER := by
  rw [start_status]
  decide

/-- C2: from any reachable state not already at GAME_OVER, a call transitions
to GAME_OVER exactly when a newly spawned piece (after a hard-drop lock, an
empty-slot hold, or an expired lock countdown in `update`) or a hold-swapped
piece fails the spawn-position validity check, and the transition happens in
that very call; release events never change the status. -/
theorem game_over_only_on_spawn_failure (f : Nat → Nat) (e : Engine)
    (hr : Reachable f e) (hngo : e.status ≠ GAME_OVER) :
    (∀ a : Nat, ((handleAction f a e).status = GAME_OVER ↔ actionTrigger a e)) ∧
    (∀ a : Nat, (handleActionRelease a e).status = e.status) ∧
    (∀ dt : Rat, ((update f dt e).status = GAME_OVER ↔ updateTrigger dt e)) := by
  obtain ⟨hstv, -, -, -⟩ := reachable_inv hr
  refine ⟨?_, fun a => handleActionRelease_status, ?_⟩
  · intro a
    unfold handleAction
    rcases hstv with h0 | h1 | h2 | h3
    · rw [if_pos h0]
      have htf : ¬ actionTrigger a e := by
        rintro ⟨hpl, -⟩
        rw [h0] at hpl
        exact absurd hpl (by decide)
      split_ifs with ha
      · exact iff_of_false start_status_ne_go htf
      · exact iff_of_false hngo htf
    · rw [if_neg (by rw [h1]; decide), if_neg (by rw [h1]; decide),
        if_neg (by rw [h1]; decide)]
      rcases a with _ | _ | _ | _ | _ | _ | _ | _ | _ | n
      · refine iff_of_false ?_ ?_
        · rw [movePiece_status, h1]
          decide
        · rintro ⟨-, p, -, (⟨h3', -⟩ | ⟨h6', -⟩)⟩
          · exact absurd h3' (by decide)
          · exact absurd h6' (by decide)
      · refine iff_of_false ?_ ?_
        · rw [movePiece_status, h1]
          decide
        · rintro ⟨-, p, -, (⟨h3', -⟩ | ⟨h6', -⟩)⟩
          · exact absurd h3' (by decide)
          · exact absurd h6' (by decide)
      · refine iff_of_false ?_ ?_
        · show e.status ≠ GAME_OVER
          exact hngo
        · rintro ⟨-, p, -, (⟨h3', -⟩ | ⟨h6', -⟩)⟩
          · exact absurd h3' (by decide)
          · exact absurd h6' (by decide)
      · rw [hardDrop_status_iff hngo]
        constructor
        · rintro ⟨p, hp, hswf⟩
          exact ⟨h1, p, hp, Or.inl ⟨rfl, hswf⟩⟩
        · rintro ⟨-, p, hp, (⟨-, hswf⟩ | ⟨h6', -⟩)⟩
          · exact ⟨p, hp, hswf⟩
          · exact absurd h6' (by decide)
      · refine iff_of_false ?_ ?_
        · rw [rotatePiece_status, h1]
          decide
        · rintro ⟨-, p, -, (⟨h3', -⟩ | ⟨h6', -⟩)⟩
          · exact absurd h3' (by decide)
          · exact absurd h6' (by decide)
      · refine iff_of_false ?_ ?_
        · rw [rotatePiece_status, h1]
          decide
        · rintro ⟨-, p, -, (⟨h3', -⟩ | ⟨h6', -⟩)⟩
          · exact absurd h3' (by decide)
          · exact absurd h6' (by decide)
      · rw [holdPiece_status_iff hngo]
        constructor
        · rintro ⟨p, hp, hch, hcase⟩
          exact ⟨h1, p, hp, Or.inr ⟨rfl, hch, hcase⟩⟩
        · rintro ⟨-, p, hp, (⟨h3', -⟩ | ⟨-, hch, hcase⟩)⟩
          · exact absurd h3' (by decide)
          · exact ⟨p, hp, hch, hcase⟩
      · refine iff_of_false (pause_status_ne_go hngo) ?_
        rintro ⟨-, p, -, (⟨h3', -⟩ | ⟨h6', -⟩)⟩
        · exact absurd h3' (by decide)
        · exact absurd h6' (by decide)
      · refine iff_of_false start_status_ne_go ?_
        rintro ⟨-, p, -, (⟨h3', -⟩ | ⟨h6', -⟩)⟩
        · exact absurd h3' (by decide)
        · exact absurd h6' (by decide)
      · refine iff_of_false hngo ?_
        rintro ⟨-, p, -, (⟨h3', -⟩ | ⟨h6', -⟩)⟩
        · unfold HARD_DROP at h3'
          omega
        · unfold HOLD at h6'
          omega
    · rw [if_neg (by rw [h2]; decide), if_neg (by rw [h2]; decide), if_pos h2]
      have htf : ¬ actionTrigger a e := by
        rintro ⟨hpl, -⟩
        rw [h2] at hpl
        exact absurd hpl (by decide)
      split_ifs with ha
      · exact iff_of_false (pause_status_ne_go hngo) htf
      · exact iff_of_false hngo htf
    · exact absurd h3 hngo
  · intro dt
    unfold update
    by_cases hnp : e.status ≠ PLAYING
    · rw [if_pos hnp]
      refine iff_of_false hngo ?_
      rintro ⟨hpl, -⟩
      exact absurd hpl (by simpa using hnp)
    · rw [if_neg hnp]
      have h1 : e.status = PLAYING := by
        by_contra hc
        exact hnp hc
      rcases hcp : e.state.currentPiece with _ | p
      · simp only [hcp]
        refine iff_of_false hngo ?_
        rintro ⟨-, hne, -⟩
        exact hne hcp
      · simp only [hcp]
        obtain ⟨q, hq'⟩ := @postGravity_piece dt e p hcp
        by_cases hlock : (postGravity dt e).isLocking = true
        · rw [if_pos hlock]
          by_cases hlt : (LOCK_DELAY : Rat) ≤ (postGravity dt e).lockTimer + dt
          · rw [if_pos hlt]
            have hiff := lockPiece_status_iff (f := f)
              (e := { postGravity dt e with
                lockTimer := (postGravity dt e).lockTimer + dt })
              (p := q) hq' (by rw [show ({ postGravity dt e with
                lockTimer := (postGravity dt e).lockTimer + dt } : Engine).status =
                  (postGravity dt e).status from rfl, postGravity_status]; exact hngo)
            rw [hiff]
            constructor
            · intro hswf
              refine ⟨h1, by rw [hcp]; exact fun hc => Option.noConfusion hc,
                hlock, hlt, q, hq', hswf⟩
            · rintro ⟨-, -, -, -, q', hq'', hswf⟩
              rw [hq'] at hq''
              obtain rfl := Option.some_inj.mp hq''
              exact hswf
          · rw [if_neg hlt]
            refine iff_of_false ?_ ?_
            · show ({ postGravity dt e with
                lockTimer := (postGravity dt e).lockTimer + dt } : Engine).status ≠ GAME_OVER
              rw [show ({ postGravity dt e with
                lockTimer := (postGravity dt e).lockTimer + dt } : Engine).status =
                  (postGravity dt e).status from rfl, postGravity_status]
              exact hngo
            · rintro ⟨-, -, -, hlt', -⟩
              exact hlt hlt'
        · rw [if_neg hlock]
          refine iff_of_false ?_ ?_
          · rw [postGravity_status]
            exact hngo
          · rintro ⟨-, -, hlock', -⟩
            exact hlock hlock'

/-- Closed instance of the C2 theorem on the freshly constructed engine. -/
theorem game_over_only_on_spawn_failure_witness :
    ((mkEngine (fun _ => 0)).status ≠ GAME_OVER) ∧
    ((handleAction (fun _ => 0) 0 (mkEngine (fun _ => 0))).status = GAME_OVER ↔
      actionTrigger 0 (mkEngine (fun _ => 0))) :=
  ⟨by decide,
   (game_over_only_on_spawn_failure (fun _ => 0) (mkEngine (fun _ => 0))
      Reachable.init (by decide)).1 0⟩

end Brickdrop
